import Mathlib

/-!
Verification of the speed-test scheduling controller of argusSyS
(source file src/speedtest-api.js).

The JavaScript source is shallowly embedded: JSON values become an inductive
type, JSON.parse becomes an executable recursive-descent parser over character
lists, and the controller becomes a record of state with one pure transition
function per public operation.  The asynchronous run of the external process is
split, exactly at its await points, into a synchronous start prefix (doRunStart)
and a completion step (finishRun) that receives the outcome of the process run.
Machine numbers of the source are modelled as Nat (epoch milliseconds,
counters) and Rat (measured throughput values); JavaScript non-finite numbers
are modelled by Option.  Recursions of the source whose termination depends on
consuming input are given explicit fuel; the fuel chosen always exceeds the
recursion depth actually reachable on the given input.
-/

set_option maxRecDepth 8000

namespace ArgusSys

/-- A JSON value, the result of JSON.parse.  Objects keep their key-value
pairs in source order; a duplicate key is resolved at lookup time by taking
the last occurrence, matching JavaScript object semantics after parse. -/
inductive Json where
  | null : Json
  | bool : Bool → Json
  | num : Rat → Json
  | str : String → Json
  | arr : List Json → Json
  | obj : List (String × Json) → Json
deriving Repr

/-- Structural equality of JSON values, standing in for the reference
comparison of the source at the one place it occurs (safeJsonParse compares
the picked object against the parse result; the pick is either the parse
result itself or a strict subterm of it, so reference equality and
structural equality agree there). -/
def Json.beq : Json → Json → Bool
  | .null, .null => true
  | .bool a, .bool b => a == b
  | .num a, .num b => a == b
  | .str a, .str b => a == b
  | .arr a, .arr b => beqList a b
  | .obj a, .obj b => beqKV a b
  | _, _ => false
where
  beqList : List Json → List Json → Bool
    | [], [] => true
    | x :: xs, y :: ys => Json.beq x y && beqList xs ys
    | _, _ => false
  beqKV : List (String × Json) → List (String × Json) → Bool
    | [], [] => true
    | (k1, v1) :: xs, (k2, v2) :: ys => k1 == k2 && Json.beq v1 v2 && beqKV xs ys
    | _, _ => false

/-- Last-occurrence association lookup (JavaScript keeps the last duplicate
key after JSON.parse). -/
def jlookup (kvs : List (String × Json)) (k : String) : Option Json :=
  match kvs with
  | [] => none
  | (k1, v1) :: rest =>
    match jlookup rest k with
    | some v => some v
    | none => if k1 = k then some v1 else none

/-- Property access obj.k of the source: objects look the key up, every
other value (including arrays, whose elements are not named fields the code
reads) yields undefined, modelled as none. -/
def jfield : Json → String → Option Json
  | .obj kvs, k => jlookup kvs k
  | _, _ => none

/-- JavaScript truthiness of a JSON value. -/
def truthy : Json → Bool
  | .null => false
  | .bool b => b
  | .num q => q != 0
  | .str s => s.data != []
  | .arr _ => true
  | .obj _ => true

/-- Truthiness of a possibly-undefined field. -/
def truthyOpt : Option Json → Bool
  | none => false
  | some j => truthy j

/-- v is a truthy value of JavaScript typeof object: an object or an array
(null is typeof object but falsy, so it never passes the combined check
of the source). -/
def isContainer : Json → Bool
  | .arr _ => true
  | .obj _ => true
  | _ => false

/-- The strict comparison obj.type === "result" of the source. -/
def isResultTagged (v : Json) : Bool :=
  match jfield v "type" with
  | some (.str s) => s == "result"
  | _ => false

/-- scoreCandidate of src/speedtest-api.js lines 233-247: score a candidate
object by how result-like it looks.  Non-objects score 0 (returned early by
the source); arrays pass the typeof object test of the source but have none
of the read fields, so the same formula yields 0 for them as well. -/
def scoreCandidate (v : Json) : Nat :=
  match v with
  | .obj _ | .arr _ =>
    (if truthyOpt (jfield v "ping") then 2 else 0) +
    (if truthyOpt (jfield v "download") then 3 else 0) +
    (if truthyOpt (jfield v "upload") then 3 else 0) +
    (if isResultTagged v then 10 else 0) +
    (if truthyOpt (jfield v "isp") then 1 else 0) +
    (if truthyOpt (jfield v "interface") then 1 else 0) +
    (if truthyOpt (jfield v "server") then 1 else 0)
  | _ => 0

/-- Structural size of a JSON value, used as fuel for the recursion of
pickBestSpeedtestResult (the source recursion descends into subterms only,
so the size always bounds the recursion depth). -/
def jsize : Json → Nat
  | .null | .bool _ | .num _ | .str _ => 1
  | .arr xs => 1 + jsizeL xs
  | .obj kvs => 1 + jsizeKV kvs
where
  jsizeL : List Json → Nat
    | [] => 0
    | x :: xs => jsize x + jsizeL xs
  jsizeKV : List (String × Json) → Nat
    | [] => 0
    | (_, x) :: xs => jsize x + jsizeKV xs

/-- The nested result or data member the source descends into:
v.result when it is a truthy object, else v.data when it is a truthy
object, else nothing. -/
def innerCandidate (v : Json) : Option Json :=
  match jfield v "result" with
  | some j =>
    if isContainer j then some j
    else match jfield v "data" with
      | some j2 => if isContainer j2 then some j2 else none
      | none => none
  | none =>
    match jfield v "data" with
    | some j2 => if isContainer j2 then some j2 else none
    | none => none

mutual

/-- pickBestSpeedtestResult of src/speedtest-api.js lines 250-288, with
explicit fuel.  Scalars (falsy or not an object) yield none; an array is
scanned for its best-scoring element with an early return on a
type = result element; an object tagged type = result is returned as is;
otherwise a result or data sub-object is tried recursively, falling back
to the object itself. -/
def pickBestF : Nat → Json → Option Json
  | 0, _ => none
  | fuel + 1, v =>
    match v with
    | .arr xs => pickArrF fuel xs none 0
    | .obj kvs =>
      if isResultTagged (.obj kvs) then some (.obj kvs)
      else
        match innerCandidate (.obj kvs) with
        | some inner =>
          match pickBestF fuel inner with
          | some picked => some picked
          | none => some (.obj kvs)
        | none => some (.obj kvs)
    | _ => none

/-- The array loop of pickBestSpeedtestResult: candidate per element is the
recursive pick or the element itself; a type = result candidate returns
immediately; otherwise the strictly best positive score wins; a final best
score of 0 yields none. -/
def pickArrF : Nat → List Json → Option Json → Nat → Option Json
  | _, [], best, bestScore => if 0 < bestScore then best else none
  | 0, _ :: _, _, _ => none
  | fuel + 1, it :: rest, best, bestScore =>
    let cand := (pickBestF fuel it).getD it
    let sc := scoreCandidate cand
    if isResultTagged cand then some cand
    else if bestScore < sc then pickArrF fuel rest (some cand) sc
    else pickArrF fuel rest best bestScore

end

/-- pickBestSpeedtestResult with its fuel instantiated from the structural
size of the input; the recursion of the source only descends into strict
subterms, so this always suffices. -/
def pickBestSpeedtestResult (v : Json) : Option Json :=
  pickBestF (2 * jsize v + 2) v

/-!
A JSON parser over character lists, modelling the platform JSON.parse the
source calls.  It follows the JSON grammar: a value is null, true, false, a
number, a string, an array or an object; whitespace is the four JSON
whitespace characters.  JSON.parse is platform code, not repository code,
so this is the one definition translated from the JSON standard rather than
from the source file.
-/

/-- JSON whitespace. -/
def isJsonWs (c : Char) : Bool :=
  c = ' ' ∨ c = '\t' ∨ c = '\n' ∨ c = '\r'

/-- Drop leading JSON whitespace. -/
def skipWs : List Char → List Char
  | [] => []
  | c :: cs => if isJsonWs c then skipWs cs else c :: cs

/-- Hexadecimal digit value. -/
def hexVal (c : Char) : Option Nat :=
  if '0' ≤ c ∧ c ≤ '9' then some (c.toNat - 48)
  else if 'a' ≤ c ∧ c ≤ 'f' then some (c.toNat - 87)
  else if 'A' ≤ c ∧ c ≤ 'F' then some (c.toNat - 55)
  else none

/-- Parse the body of a JSON string after the opening quote, handling the
escape sequences of the JSON grammar; acc holds the decoded characters in
reverse. -/
def parseStrAux : List Char → List Char → Option (String × List Char)
  | [], _ => none
  | '"' :: rest, acc => some (String.mk acc.reverse, rest)
  | '\\' :: 'u' :: a :: b :: c :: d :: rest, acc =>
    match hexVal a, hexVal b, hexVal c, hexVal d with
    | some ha, some hb, some hc, some hd =>
      parseStrAux rest (Char.ofNat (((ha * 16 + hb) * 16 + hc) * 16 + hd) :: acc)
    | _, _, _, _ => none
  | '\\' :: e :: rest, acc =>
    if e = '"' then parseStrAux rest ('"' :: acc)
    else if e = '\\' then parseStrAux rest ('\\' :: acc)
    else if e = '/' then parseStrAux rest ('/' :: acc)
    else if e = 'b' then parseStrAux rest ('\x08' :: acc)
    else if e = 'f' then parseStrAux rest ('\x0c' :: acc)
    else if e = 'n' then parseStrAux rest ('\n' :: acc)
    else if e = 'r' then parseStrAux rest ('\r' :: acc)
    else if e = 't' then parseStrAux rest ('\t' :: acc)
    else none
  | c :: rest, acc =>
    if c.toNat < 32 then none else parseStrAux rest (c :: acc)

/-- Split off a maximal run of decimal digits. -/
def takeDigits : List Char → List Char × List Char
  | [] => ([], [])
  | c :: cs =>
    if c.isDigit then
      let (ds, rest) := takeDigits cs
      (c :: ds, rest)
    else ([], c :: cs)

/-- Decimal digits to a natural number. -/
def digitsToNat (ds : List Char) : Nat :=
  ds.foldl (fun acc c => 10 * acc + (c.toNat - 48)) 0

/-- Assemble a JSON number from its sign, integer digits, fraction digits
and exponent: the digits as an integer times ten to the signed exponent,
built directly as a normalized rational. -/
def mkNum (neg : Bool) (ds fs : List Char) (e : Nat) (eneg : Bool) : Json :=
  let mantNat : Nat := digitsToNat ds * 10 ^ fs.length + digitsToNat fs
  let mant : Int := if neg then -(mantNat : Int) else (mantNat : Int)
  let ex : Int := (if eneg then -(e : Int) else (e : Int)) - (fs.length : Int)
  if 0 ≤ ex then .num (mkRat (mant * ((10 : Int) ^ ex.toNat)) 1)
  else .num (mkRat mant ((10 : Nat) ^ (-ex).toNat))

/-- Parse the optional exponent part of a JSON number. -/
def parseExpPart (neg : Bool) (ds fs : List Char) (cs : List Char) :
    Option (Json × List Char) :=
  match cs with
  | 'e' :: r | 'E' :: r =>
    let (esign, r1) := match r with
      | '+' :: r2 => (false, r2)
      | '-' :: r2 => (true, r2)
      | _ => (false, r)
    match takeDigits r1 with
    | ([], _) => none
    | (es, r2) => some (mkNum neg ds fs (digitsToNat es) esign, r2)
  | _ => some (mkNum neg ds fs 0 false, cs)

/-- Parse a JSON number (sign, integer part without redundant leading zero,
optional fraction, optional exponent). -/
def parseNum (cs : List Char) : Option (Json × List Char) :=
  let (neg, cs1) := match cs with
    | '-' :: r => (true, r)
    | _ => (false, cs)
  match takeDigits cs1 with
  | ([], _) => none
  | (ds, cs2) =>
    if 1 < ds.length ∧ ds.head? = some '0' then none
    else
      match cs2 with
      | '.' :: r =>
        match takeDigits r with
        | ([], _) => none
        | (fs, cs3) => parseExpPart neg ds fs cs3
      | _ => parseExpPart neg ds [] cs2

mutual

/-- Parse one JSON value; the fuel bounds the number of composite openings
and separators consumed, so input length plus one always suffices. -/
def parseVal : Nat → List Char → Option (Json × List Char)
  | 0, _ => none
  | fuel + 1, cs =>
    match skipWs cs with
    | '{' :: r =>
      match skipWs r with
      | '}' :: r2 => some (.obj [], r2)
      | cs2 => parseMembers fuel cs2 []
    | '[' :: r =>
      match skipWs r with
      | ']' :: r2 => some (.arr [], r2)
      | cs2 => parseElems fuel cs2 []
    | '"' :: r =>
      match parseStrAux r [] with
      | some (s, rest) => some (.str s, rest)
      | none => none
    | 't' :: 'r' :: 'u' :: 'e' :: r => some (.bool true, r)
    | 'f' :: 'a' :: 'l' :: 's' :: 'e' :: r => some (.bool false, r)
    | 'n' :: 'u' :: 'l' :: 'l' :: r => some (.null, r)
    | cs1 => parseNum cs1

/-- Parse the elements of a non-empty JSON array, accumulated in reverse. -/
def parseElems : Nat → List Char → List Json → Option (Json × List Char)
  | 0, _, _ => none
  | fuel + 1, cs, acc =>
    match parseVal fuel cs with
    | none => none
    | some (v, rest) =>
      match skipWs rest with
      | ',' :: r2 => parseElems fuel r2 (v :: acc)
      | ']' :: r2 => some (.arr (v :: acc).reverse, r2)
      | _ => none

/-- Parse the members of a non-empty JSON object, accumulated in reverse. -/
def parseMembers : Nat → List Char → List (String × Json) →
    Option (Json × List Char)
  | 0, _, _ => none
  | fuel + 1, cs, acc =>
    match skipWs cs with
    | '"' :: r =>
      match parseStrAux r [] with
      | none => none
      | some (k, rest) =>
        match skipWs rest with
        | ':' :: r2 =>
          match parseVal fuel r2 with
          | none => none
          | some (v, rest2) =>
            match skipWs rest2 with
            | ',' :: r3 => parseMembers fuel r3 ((k, v) :: acc)
            | '}' :: r3 => some (.obj ((k, v) :: acc).reverse, r3)
            | _ => none
        | _ => none
    | _ => none

end

/-- JSON.parse over a character list: one value, with nothing but
whitespace allowed after it.  Every recursive call of the parser above
consumes fuel, and at most two units of fuel are spent per character of
input, so the fuel given here always suffices. -/
def jsonParseL (cs : List Char) : Option Json :=
  match parseVal (2 * cs.length + 2) cs with
  | some (v, rest) => if skipWs rest = [] then some v else none
  | none => none

/-- The trim call of the source (String.prototype.trim), restricted to the
ASCII whitespace that can occur here. -/
def trimChars (cs : List Char) : List Char :=
  ((cs.dropWhile isJsonWs).reverse.dropWhile isJsonWs).reverse

/-- extractJsonBlockFrom of src/speedtest-api.js lines 194-230: starting
inside the text, track brace and bracket depth while honouring string
quoting and escapes; when the depth returns to zero at a closer, yield the
block scanned so far (in acc, reversed) together with the rest of the
text.  The source walks indices; here the already-scanned prefix is
accumulated instead. -/
def scanBlockAux : List Char → Int → Bool → Bool → List Char →
    Option (List Char × List Char)
  | [], _, _, _, _ => none
  | c :: cs, depth, inStr, esc, acc =>
    if inStr then
      if esc then scanBlockAux cs depth true false (c :: acc)
      else if c = '\\' then scanBlockAux cs depth true true (c :: acc)
      else if c = '"' then scanBlockAux cs depth false false (c :: acc)
      else scanBlockAux cs depth true false (c :: acc)
    else if c = '"' then scanBlockAux cs depth true false (c :: acc)
    else if c = '{' ∨ c = '[' then scanBlockAux cs (depth + 1) false false (c :: acc)
    else if c = '}' ∨ c = ']' then
      if depth - 1 = 0 then some ((c :: acc).reverse, cs)
      else scanBlockAux cs (depth - 1) false false (c :: acc)
    else scanBlockAux cs depth false false (c :: acc)

/-- The search for the next opening brace or bracket (the regex search of
extractBestJsonBlock), returning the suffix that starts there. -/
def findOpen : List Char → Option (List Char)
  | [] => none
  | c :: cs => if c = '{' ∨ c = '[' then some (c :: cs) else findOpen cs

/-- The scanning loop of extractBestJsonBlock, src/speedtest-api.js lines
291-309: collect up to 40 complete top-level blocks left to right; when a
scan fails, resume one character after the opening that started it.  Each
iteration consumes at least one character, so fuel = length + 1 always
suffices. -/
def collectBlocks : Nat → List Char → List (List Char) → List (List Char)
  | 0, _, acc => acc.reverse
  | fuel + 1, cs, acc =>
    if 40 ≤ acc.length then acc.reverse
    else
      match findOpen cs with
      | none => acc.reverse
      | some cs1 =>
        match scanBlockAux cs1 0 false false [] with
        | some (block, rest) => collectBlocks fuel rest (block :: acc)
        | none => collectBlocks fuel cs1.tail acc

/-- The selection loop of extractBestJsonBlock, lines 311-326: parse every
block, apply pickBestSpeedtestResult, and keep the strictly best-scoring
candidate; the score starts at -1 so any parsed block is kept. -/
def bestOfBlocks : List (List Char) → Option Json → Int → Option Json
  | [], best, _ => best
  | b :: bs, best, bestScore =>
    match jsonParseL b with
    | some obj0 =>
      let obj := (pickBestSpeedtestResult obj0).getD obj0
      let sc : Int := (scoreCandidate obj : Nat)
      if bestScore < sc then bestOfBlocks bs (some obj) sc
      else bestOfBlocks bs best bestScore
    | none => bestOfBlocks bs best bestScore

/-- extractBestJsonBlock of src/speedtest-api.js lines 291-327. -/
def extractBestJsonBlockL (cs : List Char) : Option Json :=
  bestOfBlocks (collectBlocks (cs.length + 1) cs []) none (-1)

/-- Result of safeJsonParse.  The diagnostic payload of the failure case of
the source (exception message, head and tail excerpts, input length) is
data derived from the input for logging only and is not modelled; the
error discriminator is. -/
inductive SJP where
  | ok (value : Json) (salvaged : Bool)
  | fail (error : String)
deriving Repr

/-- safeJsonParse of src/speedtest-api.js lines 330-357: trim, refuse empty
input, try a direct parse (followed by pickBestSpeedtestResult and the
picked-is-different salvage flag), and fall back to block extraction. -/
def safeJsonParse (text : String) : SJP :=
  let s := trimChars text.data
  if s = [] then .fail "empty_output"
  else
    match jsonParseL s with
    | some parsed =>
      let picked := pickBestSpeedtestResult parsed
      let salv := match picked with
        | none => false
        | some p => !(Json.beq p parsed)
      .ok (picked.getD parsed) salv
    | none =>
      match extractBestJsonBlockL s with
      | some best => .ok best true
      | none => .fail "invalid_json"

/-- Parsed values on which the direct-parse path of safeJsonParse returns
the value unchanged: scalars, and objects that either carry the
type = result tag or have no nested result or data container for the pick
to descend into.  Arrays, and objects with such a nested container, may
have a sub-object substituted instead. -/
def unchangedShape : Json → Prop
  | .arr _ => False
  | .obj kvs => isResultTagged (.obj kvs) = true ∨ innerCandidate (.obj kvs) = none
  | _ => True

/-!
The controller of src/speedtest-api.js lines 806-1155.  Timestamps and
durations are epoch milliseconds as Nat; throughput values are Rat, with
Option for the null and non-finite cases of the source.
-/

/-- computeRateLimitBackoffMs of src/speedtest-api.js lines 50-61: a fixed
step table indexed by the consecutive-hit count, clamped at both ends.
The source coerces its argument with Number and floor; every call site
passes a natural number, which that coercion leaves unchanged. -/
def computeRateLimitBackoffMs (count : Nat) : Nat :=
  let steps : List Nat :=
    [30 * 60 * 1000, 60 * 60 * 1000, 2 * 60 * 60 * 1000,
     4 * 60 * 60 * 1000, 6 * 60 * 60 * 1000]
  let c := max 1 count
  steps.getD (min (steps.length - 1) (c - 1)) 0

/-- fmtMin of src/speedtest-api.js lines 64-67: milliseconds as
rounded-up minutes, rendered as a string.  Nat ceiling division replaces
Math.ceil on the nonnegative inputs that occur. -/
def fmtMin (ms : Nat) : String :=
  toString ((ms + 59999) / 60000) ++ "m"

/-- The 24 hour history window in milliseconds. -/
def HISTORY_24H_MS : Nat := 24 * 60 * 60 * 1000

/-- clampInt of src/speedtest-api.js lines 16-21.  The argument is the
Number coercion of the JavaScript input: none models every non-finite
coercion result (NaN, Infinity, non-numeric strings, undefined) and is
clamped to the minimum; a finite value is floored and clamped. -/
def clampIntQ (n : Option Rat) (lo hi : Int) : Int :=
  match n with
  | none => lo
  | some x => max lo (min hi ⌊x⌋)

/-- The fixed gauge step table of niceGaugeMaxBucket. -/
def gaugeSteps : List Rat :=
  [25, 50, 75, 100, 150, 200, 250, 300, 400, 500, 750, 1000, 1500, 2000,
   3000, 5000]

/-- The first step of the table at least as large as x, if any. -/
def firstStepGe (x : Rat) : List Rat → Option Rat
  | [] => none
  | s :: ss => if x ≤ s then some s else firstStepGe x ss

/-- niceGaugeMaxBucket of src/speedtest-api.js lines 806-813: a finite
positive observation is kept, anything else is replaced by the fallback;
the result is the first table step at least as large, or the value rounded
up to the next thousand beyond the table. -/
def niceGaugeMaxBucket (mbps : Option Rat) (fallback : Rat) : Rat :=
  let x := match mbps with
    | some v => if 0 < v then v else fallback
    | none => fallback
  match firstStepGe x gaugeSteps with
  | some s => s
  | none => ((⌈x / 1000⌉ : Int) : Rat) * 1000

/-- One history entry (pushHistory, lines 898-912). -/
structure HistEntry where
  ts : Nat
  runner : String
  ping_ms : Option Rat
  jitter_ms : Option Rat
  down_mbps : Option Rat
  up_mbps : Option Rat
  note : String
deriving Repr, DecidableEq

/-- The normalized result a completed runSpeedtest resolves with, as
consumed by doRun: the canonical measurement fields plus the note and
rate-limited marker attached on the fallback path (lines 707-712). -/
structure RunResult where
  runner : String
  ping_ms : Option Rat
  jitter_ms : Option Rat
  down_mbps : Option Rat
  up_mbps : Option Rat
  note : String
  ooklaRateLimited : Bool
deriving Repr, DecidableEq

/-- The live progress value (lines 937-944). -/
structure Progress where
  ts : Nat
  stage : String
  ping_ms : Option Rat
  jitter_ms : Option Rat
  down_mbps : Option Rat
  up_mbps : Option Rat
deriving Repr, DecidableEq

/-- The last completed result with its timestamp (line 1012). -/
structure LastRes where
  ts : Nat
  res : RunResult
deriving Repr, DecidableEq

/-- The mutable state captured by the controller closure (lines 881-921). -/
structure CState where
  intervalMin : Nat
  rateLimitUntil : Nat
  rateLimitCount : Nat
  maxDown : Rat
  maxUp : Rat
  nextRunTs : Nat
  history : List HistEntry
  runnerName : Option String
  running : Bool
  last : Option LastRes
  lastError : Option String
  progress : Option Progress
deriving Repr, DecidableEq

/-- The snapshot shape (lines 1125-1139). -/
structure Snap where
  runner : Option String
  running : Bool
  interval_min : Nat
  next_run_ts : Nat
  last : Option LastRes
  last_error : Option String
  progress : Option Progress
  max_down_mbps : Rat
  max_up_mbps : Rat
  history_24h : List HistEntry
deriving Repr, DecidableEq

/-- pruneHistory of lines 890-895: keep entries inside the rolling 24 hour
window, then keep only the newest 5000.  The cutoff comparison is the
integer comparison of the source (the cutoff may be negative for small
clocks). -/
def pruneHistoryL (now : Nat) (h : List HistEntry) : List HistEntry :=
  let cutoff : Int := (now : Int) - (HISTORY_24H_MS : Int)
  let h1 := h.filter (fun e => cutoff ≤ (e.ts : Int))
  if 5000 < h1.length then h1.drop (h1.length - 5000) else h1

/-- scheduleNext of lines 1072-1074. -/
def scheduleNextS (now : Nat) (s : CState) : CState :=
  { s with nextRunTs := if s.intervalMin ≠ 0 then now + s.intervalMin * 60000 else 0 }

/-- The synchronous prefix of doRun (lines 931-944), up to its first await:
the single-flight guard, then running, lastError and the starting progress
value are set.  The boolean reports whether a run was started. -/
def doRunStart (now : Nat) (s : CState) : CState × Bool :=
  if s.running then (s, false)
  else
    ({ s with
        running := true
        lastError := none
        progress := some ⟨now, "starting", none, none, none, none⟩ },
      true)

/-- The outcome the awaited part of doRun observes: a resolved
runSpeedtest result, a RateLimitError, or any other error (whose message
becomes the lastError text). -/
inductive RunOutcome where
  | success (res : RunResult)
  | rateLimitError (retryAfterMs : Nat)
  | otherError (msg : String)
deriving Repr

/-- The progress-field merge of lines 999-1004: a field still null in the
final result is filled from the live progress value. -/
def mergeFinal (res : RunResult) (p : Progress) : RunResult :=
  { res with
      ping_ms := res.ping_ms <|> p.ping_ms
      jitter_ms := res.jitter_ms <|> p.jitter_ms
      down_mbps := res.down_mbps <|> p.down_mbps
      up_mbps := res.up_mbps <|> p.up_mbps }

/-- The rate-limit bookkeeping at the head of the success path of doRun
(lines 968-995): a fallback result flagged as rate-limited escalates the
hit counter, opens the backoff window, pushes the schedule to at least its
end and records the user message; any result not so flagged resets an
open window and counter. -/
def rateLimitPhase (now : Nat) (res : RunResult) (s : CState) : CState :=
  if res.ooklaRateLimited then
    let count1 := max 1 (s.rateLimitCount + 1)
    let backoff := computeRateLimitBackoffMs count1
    let until1 := now + backoff
    { s with
        rateLimitCount := count1
        rateLimitUntil := until1
        nextRunTs :=
          if s.nextRunTs = 0 ∨ s.nextRunTs < until1 then until1 else s.nextRunTs
        lastError :=
          some ("rate_limited: retry in " ++ fmtMin backoff ++ " (fallback used)")
        progress := s.progress.map (fun p => { p with stage := "rate_limited", ts := now }) }
  else if s.rateLimitUntil ≠ 0 ∨ s.rateLimitCount ≠ 0 then
    { s with rateLimitUntil := 0, rateLimitCount := 0 }
  else s

/-- The completion of doRun (lines 946-1068), applied when the awaited run
settles; disk writes are best-effort side effects without state content
and are not modelled.  Every path ends in the finally block clearing
running. -/
def finishRun (now : Nat) (outcome : RunOutcome) (s : CState) : CState :=
  match outcome with
  | .success res =>
    let s1 := rateLimitPhase now res s
    let final := match s1.progress with
      | some p => mergeFinal res p
      | none => res
    let nextMaxDown := niceGaugeMaxBucket final.down_mbps 250
    let nextMaxUp := niceGaugeMaxBucket final.up_mbps 50
    let maxDown1 := if nextMaxDown ≠ 0 ∧ nextMaxDown ≠ s1.maxDown then nextMaxDown else s1.maxDown
    let maxUp1 := if nextMaxUp ≠ 0 ∧ nextMaxUp ≠ s1.maxUp then nextMaxUp else s1.maxUp
    let runnerName1 : Option String := some final.runner
    let entryRunner :=
      if final.runner ≠ "" then final.runner
      else (runnerName1.getD "")
    let hist1 := pruneHistoryL now s1.history ++
      [⟨now, entryRunner, final.ping_ms, final.jitter_ms, final.down_mbps,
        final.up_mbps, final.note⟩]
    let progress1 := s1.progress.map (fun p =>
      { p with
          stage := "done"
          ping_ms := final.ping_ms <|> p.ping_ms
          jitter_ms := final.jitter_ms <|> p.jitter_ms
          down_mbps := final.down_mbps <|> p.down_mbps
          up_mbps := final.up_mbps <|> p.up_mbps
          ts := now })
    { s1 with
        maxDown := maxDown1
        maxUp := maxUp1
        last := some ⟨now, final⟩
        runnerName := runnerName1
        history := hist1
        progress := progress1
        running := false }
  | .rateLimitError retryAfterMs =>
    let count1 := max 1 (s.rateLimitCount + 1)
    let backoff := if retryAfterMs ≠ 0 then retryAfterMs else computeRateLimitBackoffMs count1
    let until1 := now + backoff
    { s with
        rateLimitCount := count1
        rateLimitUntil := until1
        nextRunTs :=
          if s.nextRunTs = 0 ∨ s.nextRunTs < until1 then until1 else s.nextRunTs
        lastError := some ("rate_limited: retry in " ++ fmtMin backoff)
        progress := s.progress.map (fun p => { p with stage := "rate_limited", ts := now })
        running := false }
  | .otherError msg =>
    { s with
        lastError := some msg
        progress := s.progress.map (fun p => { p with stage := "error", ts := now })
        running := false }

/-- snapshot of lines 1125-1139: prune, then project.  It returns the
snapshot and the pruned state, because the prune mutates the history. -/
def snapshotStep (now : Nat) (s : CState) : Snap × CState :=
  let h := pruneHistoryL now s.history
  let s1 := { s with history := h }
  (⟨s.runnerName, s.running, s.intervalMin, s.nextRunTs, s.last, s.lastError,
    if s.running then s.progress else none, s.maxDown, s.maxUp, h⟩, s1)

/-- tick of lines 1077-1094 (the lazy runner detection of its first line
touches no controller state modelled here).  The boolean reports whether a
run was started. -/
def tickOp (now : Nat) (s : CState) : CState × Bool :=
  if s.intervalMin = 0 then (s, false)
  else if s.rateLimitUntil ≠ 0 ∧ now < s.rateLimitUntil then
    ({ s with
        nextRunTs :=
          if s.nextRunTs = 0 ∨ s.nextRunTs < s.rateLimitUntil then s.rateLimitUntil
          else s.nextRunTs },
      false)
  else
    let s1 := if s.nextRunTs = 0 then scheduleNextS now s else s
    if s1.nextRunTs ≤ now ∧ s1.running = false then
      doRunStart now (scheduleNextS now s1)
    else (s1, false)

/-- Result of runNow: the post state, whether a run was started, and the
returned snapshot. -/
structure RunNowRes where
  st : CState
  started : Bool
  snap : Snap

/-- runNow of lines 1097-1109: inside a rate-limit window it records the
remaining wait and advances the schedule to the window end; otherwise it
starts a run (unless one is in flight); either way it returns a
snapshot. -/
def runNowOp (now : Nat) (s : CState) : RunNowRes :=
  if s.rateLimitUntil ≠ 0 ∧ now < s.rateLimitUntil then
    let left := s.rateLimitUntil - now
    let s1 := { s with
        lastError := some ("rate_limited: retry in " ++ fmtMin left)
        nextRunTs :=
          if s.nextRunTs = 0 ∨ s.nextRunTs < s.rateLimitUntil then s.rateLimitUntil
          else s.nextRunTs }
    let (snap, s2) := snapshotStep now s1
    ⟨s2, false, snap⟩
  else
    let (s1, started) := doRunStart now s
    let (snap, s2) := snapshotStep now s1
    ⟨s2, started, snap⟩

/-- setIntervalMin of lines 1112-1122: clamp to [0, 1440] minutes (the
clamp guarantees the interval fits in Nat), persist (not modelled),
reschedule from now, and return a snapshot. -/
def setIntervalOp (m : Option Rat) (now : Nat) (s : CState) : CState × Snap :=
  let s1 := { s with intervalMin := (clampIntQ m 0 1440).toNat }
  let s2 := scheduleNextS now s1
  let (snap, s3) := snapshotStep now s2
  (s3, snap)

/-- createSpeedtestController start-up, lines 879-1152: state is loaded
from disk (or defaults), the interval is clamped, the first slot is
scheduled, and with runOnStart and a positive interval an immediate run
starts unless a persisted rate-limit window is still open, in which case
the next slot is pushed to the window end.  interval0 is the loaded
interval (or the default when absent) before clamping; until0, count0,
maxDown0, maxUp0 and hist0 are the loaded persisted values (0, 0, 0, 0 and
empty for a fresh start). -/
def initState (interval0 : Option Rat) (until0 count0 : Nat)
    (maxDown0 maxUp0 : Rat) (hist0 : List HistEntry) (runOnStart : Bool)
    (t0 : Nat) : CState :=
  let im := (clampIntQ interval0 0 1440).toNat
  let base : CState :=
    { intervalMin := im
      rateLimitUntil := until0
      rateLimitCount := count0
      maxDown := maxDown0
      maxUp := maxUp0
      nextRunTs := 0
      history := hist0
      runnerName := none
      running := false
      last := none
      lastError := none
      progress := none }
  let s1 := scheduleNextS t0 base
  if runOnStart ∧ 0 < im then
    if until0 = 0 ∨ until0 ≤ t0 then
      scheduleNextS t0 (doRunStart t0 s1).1
    else { s1 with nextRunTs := max s1.nextRunTs until0 }
  else s1

/-- The externally reachable controller configurations, paired with the
time of the step that produced them; the clock passed to successive
operations never decreases.  A run completion (finishRun) can only follow
a state that actually has a run in flight. -/
inductive Reachable : CState → Nat → Prop where
  | init : ∀ interval0 until0 count0 maxDown0 maxUp0 hist0 runOnStart t0,
      Reachable (initState interval0 until0 count0 maxDown0 maxUp0 hist0 runOnStart t0) t0
  | tick : ∀ {s t} now, Reachable s t → t ≤ now → Reachable (tickOp now s).1 now
  | runNow : ∀ {s t} now, Reachable s t → t ≤ now → Reachable (runNowOp now s).st now
  | setInterval : ∀ {s t} m now, Reachable s t → t ≤ now →
      Reachable (setIntervalOp m now s).1 now
  | snap : ∀ {s t} now, Reachable s t → t ≤ now → Reachable (snapshotStep now s).2 now
  | finish : ∀ {s t} outcome now, Reachable s t → t ≤ now → s.running = true →
      Reachable (finishRun now outcome s) now

/-!
Concrete sample data used by the witness and counterexample theorems below.
-/

/-- A freshly created controller: no persisted state, scheduling disabled,
no run on start. -/
def sampleState : CState := initState none 0 0 0 0 [] false 0

/-- A controller whose history holds one entry. -/
def histSample : CState :=
  { sampleState with history := [⟨1000000, "ookla", none, none, none, none, ""⟩] }

/-- A controller restarted with a persisted rate-limit window ending at
90000 ms. -/
def rlSample : CState := initState none 90000 1 0 0 [] false 0

/-- A controller created with a 5 minute interval and run-on-start, so a
run is in flight from creation. -/
def runningSample : CState := initState (some 5) 0 0 0 0 [] true 0

/-- A completed run measuring 800 Mbps down. -/
def res800 : RunResult := ⟨"ookla", some 15, some 1, some 800, some 40, "", false⟩

/-- A completed run measuring 10 Mbps down. -/
def res10 : RunResult := ⟨"ookla", some 15, some 1, some 10, some 5, "", false⟩

/-- Trace for the gauge-hint counterexample: start a run at 1000. -/
def c4sA : CState := (runNowOp 1000 sampleState).st

/-- ... complete it at 2000 having measured 800 Mbps down ... -/
def c4sB : CState := finishRun 2000 (.success res800) c4sA

/-- ... start another run at 300000 ... -/
def c4sC : CState := (runNowOp 300000 c4sB).st

/-- ... and complete it at 301000 having measured 10 Mbps down. -/
def c4sD : CState := finishRun 301000 (.success res10) c4sC

/-- A controller restarted with a persisted rate-limit window ending at
1800000 ms and scheduling disabled. -/
def c1s0 : CState := initState (some 0) 1800000 1 0 0 [] false 0

/-- The same controller after setIntervalMin(1) at time 0, still inside
the rate-limit window. -/
def c1s1 : CState := (setIntervalOp (some 1) 0 c1s0).1

/-!
Theorems.  One theorem per claim (with witnesses and counterexamples where
required), preceded by the helper lemmas they share.
-/

/-- C6: for every consecutive-hit count from 1 the backoff window is the
count-th entry of the fixed table 30m, 1h, 2h, 4h, 6h up to count 5, is 6h
for every count from 5 on, and strictly increases through counts 1 to 5. -/
theorem C6_backoff_step_table :
    (∀ c : Nat, 1 ≤ c → c ≤ 5 →
      computeRateLimitBackoffMs c =
        [1800000, 3600000, 7200000, 14400000, 21600000].getD (c - 1) 0) ∧
    (∀ c : Nat, 5 ≤ c → computeRateLimitBackoffMs c = 21600000) ∧
    (∀ c : Nat, 1 ≤ c → c < 5 →
      computeRateLimitBackoffMs c < computeRateLimitBackoffMs (c + 1)) := by
  refine ⟨?_, ?_, ?_⟩
  · intro c h1 h5
    interval_cases c <;> rfl
  · intro c h5
    simp only [computeRateLimitBackoffMs, List.length_cons, List.length_nil]
    rw [show min (0 + 1 + 1 + 1 + 1 + 1 - 1) (max 1 c - 1) = 4 by omega]
    rfl
  · intro c h1 h5
    interval_cases c <;> decide

/-- Witness for C6 at counts 2, 7 and the strict step from 3 to 4. -/
theorem C6_backoff_step_table_witness :
    computeRateLimitBackoffMs 2 = 3600000 ∧
    computeRateLimitBackoffMs 7 = 21600000 ∧
    computeRateLimitBackoffMs 3 < computeRateLimitBackoffMs 4 :=
  ⟨(C6_backoff_step_table.1 2 (by decide) (by decide)).trans rfl,
   C6_backoff_step_table.2.1 7 (by decide),
   C6_backoff_step_table.2.2 3 (by decide) (by decide)⟩

/-- C9: the gauge-bucket function maps an observed 137 Mbps to the bucket
150, and maps 0 or a non-finite value to the fallback default, 250 for the
download fallback and 50 for the upload fallback. -/
theorem C9_gauge_bucket_examples :
    niceGaugeMaxBucket (some 137) 250 = 150 ∧
    niceGaugeMaxBucket (some 0) 250 = 250 ∧
    niceGaugeMaxBucket none 250 = 250 ∧
    niceGaugeMaxBucket (some 0) 50 = 50 ∧
    niceGaugeMaxBucket none 50 = 50 := by
  decide

/-- C10: setIntervalMin of a non-finite argument stores interval 0 and
disables scheduling; a finite argument is floored and clamped into
[0, 1440]; a snapshot carrying the stored interval is returned either
way. -/
theorem C10_setInterval_clamps :
    ∀ (m : Option Rat) (now : Nat) (s : CState),
      (setIntervalOp m now s).2.interval_min = (setIntervalOp m now s).1.intervalMin ∧
      (m = none → (setIntervalOp m now s).1.intervalMin = 0 ∧
        (setIntervalOp m now s).1.nextRunTs = 0) ∧
      (∀ x : Rat, m = some x →
        ((setIntervalOp m now s).1.intervalMin : Int) = max 0 (min 1440 ⌊x⌋)) := by
  intro m now s
  refine ⟨?_, ?_, ?_⟩
  · simp [setIntervalOp, snapshotStep, scheduleNextS]
  · rintro rfl
    simp [setIntervalOp, snapshotStep, scheduleNextS, clampIntQ]
  · rintro x rfl
    simp only [setIntervalOp, snapshotStep, scheduleNextS, clampIntQ]
    exact Int.toNat_of_nonneg (le_max_left 0 _)

/-- Witness for C10: a non-finite argument gives interval 0 and an
unscheduled slot; the finite argument 29/2 is floored and clamped. -/
theorem C10_setInterval_clamps_witness :
    ((setIntervalOp none 5 sampleState).1.intervalMin = 0 ∧
      (setIntervalOp none 5 sampleState).1.nextRunTs = 0) ∧
    ((setIntervalOp (some (29 / 2)) 5 sampleState).1.intervalMin : Int) =
      max 0 (min 1440 ⌊(29 / 2 : Rat)⌋) :=
  ⟨(C10_setInterval_clamps none 5 sampleState).2.1 rfl,
   (C10_setInterval_clamps (some (29 / 2)) 5 sampleState).2.2 (29 / 2) rfl⟩

/-- C8: after any snapshot call, the returned 24h history contains no
entry older than 24 hours before now, and never more than 5000 entries. -/
theorem C8_snapshot_prunes :
    ∀ (now : Nat) (s : CState),
      (∀ e ∈ (snapshotStep now s).1.history_24h,
        (now : Int) - (HISTORY_24H_MS : Int) ≤ (e.ts : Int)) ∧
      (snapshotStep now s).1.history_24h.length ≤ 5000 := by
  intro now s
  have hsnap : (snapshotStep now s).1.history_24h = pruneHistoryL now s.history := rfl
  rw [hsnap]
  constructor
  · intro e he
    simp only [pruneHistoryL] at he
    split at he
    · have := List.mem_of_mem_drop he
      have hf := List.mem_filter.mp this
      simpa using hf.2
    · have hf := List.mem_filter.mp he
      simpa using hf.2
  · simp only [pruneHistoryL]
    split
    · rename_i hlen
      rw [List.length_drop]
      omega
    · rename_i hlen
      omega

/-- Witness for C8: a concrete surviving entry of a concrete snapshot is
inside the window, and the pruned list is within the cap. -/
theorem C8_snapshot_prunes_witness :
    (⟨1000000, "ookla", none, none, none, none, ""⟩ : HistEntry) ∈
      (snapshotStep 1000000 histSample).1.history_24h ∧
    ((1000000 : Nat) : Int) - (HISTORY_24H_MS : Int) ≤ ((1000000 : Nat) : Int) ∧
    (snapshotStep 1000000 histSample).1.history_24h.length ≤ 5000 := by
  have h := C8_snapshot_prunes 1000000 histSample
  have hm : (⟨1000000, "ookla", none, none, none, none, ""⟩ : HistEntry) ∈
      (snapshotStep 1000000 histSample).1.history_24h := by decide
  exact ⟨hm, h.1 _ hm, h.2⟩

/-- The retry-in marker is an infix of every rate-limited message. -/
theorem retryIn_infix (t : String) :
    List.IsInfix ("retry in").data ("rate_limited: retry in " ++ t).data := by
  refine ⟨("rate_limited: ").data, (" ").data ++ t.data, ?_⟩
  rw [String.data_append]
  rw [show ("rate_limited: retry in ").data =
    ("rate_limited: ").data ++ ("retry in").data ++ (" ").data by decide]
  simp [List.append_assoc]

/-- C7: runNow inside a rate-limit window starts nothing, leaves the
running flag as it was, and returns a snapshot whose last error is the
rate-limited message reporting the remaining wait in minutes, which
contains the words retry in. -/
theorem C7_runNow_rate_limited :
    ∀ (now : Nat) (s : CState), now < s.rateLimitUntil →
      (runNowOp now s).started = false ∧
      (runNowOp now s).st.running = s.running ∧
      (runNowOp now s).st.lastError =
        some ("rate_limited: retry in " ++ fmtMin (s.rateLimitUntil - now)) ∧
      (runNowOp now s).snap.last_error =
        some ("rate_limited: retry in " ++ fmtMin (s.rateLimitUntil - now)) ∧
      List.IsInfix ("retry in").data
        ("rate_limited: retry in " ++ fmtMin (s.rateLimitUntil - now)).data := by
  intro now s h
  have hcond : s.rateLimitUntil ≠ 0 ∧ now < s.rateLimitUntil := ⟨by omega, h⟩
  rw [runNowOp, if_pos hcond]
  exact ⟨rfl, rfl, rfl, rfl, retryIn_infix _⟩

/-- Witness for C7 on a controller with a persisted window ending at
90000, at time 0. -/
theorem C7_runNow_rate_limited_witness :
    (runNowOp 0 rlSample).started = false ∧
    (runNowOp 0 rlSample).st.running = rlSample.running ∧
    (runNowOp 0 rlSample).st.lastError =
      some ("rate_limited: retry in " ++ fmtMin (rlSample.rateLimitUntil - 0)) ∧
    (runNowOp 0 rlSample).snap.last_error =
      some ("rate_limited: retry in " ++ fmtMin (rlSample.rateLimitUntil - 0)) ∧
    List.IsInfix ("retry in").data
      ("rate_limited: retry in " ++ fmtMin (rlSample.rateLimitUntil - 0)).data :=
  C7_runNow_rate_limited 0 rlSample (by decide)

/-- C1 is refuted as stated: from a reachable controller whose rate-limit
window is active, the public operation setIntervalMin(1) at time 0 leaves
the window active but schedules next_run_ts strictly inside it. -/
theorem C1_counterexample :
    Reachable c1s1 0 ∧ 0 < c1s1.rateLimitUntil ∧
    c1s1.nextRunTs < c1s1.rateLimitUntil := by
  refine ⟨?_, by decide, by decide⟩
  exact Reachable.setInterval (some 1) 0
    (Reachable.init (some 0) 1800000 1 0 0 [] false 0) (le_refl 0)

/-- C1 (amended): while the rate-limit window is active, tick (when
scheduling is enabled) and runNow leave next_run_ts at or beyond
rate_limit_until, which they do not change; setIntervalMin, by contrast,
reschedules from the interval alone and can place next_run_ts inside the
window. -/
theorem C1_rate_window_clamp :
    ∀ (now : Nat) (s : CState), now < s.rateLimitUntil →
      (s.intervalMin ≠ 0 →
        s.rateLimitUntil ≤ (tickOp now s).1.nextRunTs ∧
        (tickOp now s).1.rateLimitUntil = s.rateLimitUntil) ∧
      (s.rateLimitUntil ≤ (runNowOp now s).st.nextRunTs ∧
        (runNowOp now s).st.rateLimitUntil = s.rateLimitUntil) := by
  intro now s h
  have hcond : s.rateLimitUntil ≠ 0 ∧ now < s.rateLimitUntil := ⟨by omega, h⟩
  constructor
  · intro hint
    rw [tickOp, if_neg hint, if_pos hcond]
    refine ⟨?_, rfl⟩
    simp only []
    split <;> omega
  · rw [runNowOp, if_pos hcond]
    constructor
    · simp only [snapshotStep]
      split <;> omega
    · simp only [snapshotStep]

/-- Witness for C1 (amended) on a reachable rate-limited controller with
scheduling enabled. -/
theorem C1_rate_window_clamp_witness :
    (c1s1.rateLimitUntil ≤ (tickOp 5 c1s1).1.nextRunTs ∧
      (tickOp 5 c1s1).1.rateLimitUntil = c1s1.rateLimitUntil) ∧
    (c1s1.rateLimitUntil ≤ (runNowOp 5 c1s1).st.nextRunTs ∧
      (runNowOp 5 c1s1).st.rateLimitUntil = c1s1.rateLimitUntil) :=
  ⟨(C1_rate_window_clamp 5 c1s1 (by decide)).1 (by decide),
   (C1_rate_window_clamp 5 c1s1 (by decide)).2⟩

/-- A step found in the table dominates the value searched for. -/
theorem firstStepGe_ge (x : Rat) : ∀ (l : List Rat) (s : Rat),
    firstStepGe x l = some s → x ≤ s := by
  intro l
  induction l with
  | nil => intro s h; cases h
  | cons a as ih =>
    intro s h
    rw [firstStepGe] at h
    split at h
    · cases h; assumption
    · exact ih s h

/-- Rounding up to the next thousand dominates the value. -/
theorem le_ceil_thousand (x : Rat) : x ≤ ((⌈x / 1000⌉ : Int) : Rat) * 1000 := by
  have h : x / 1000 ≤ ((⌈x / 1000⌉ : Int) : Rat) := Int.le_ceil (x / 1000)
  have h2 : x / 1000 * 1000 ≤ ((⌈x / 1000⌉ : Int) : Rat) * 1000 :=
    mul_le_mul_of_nonneg_right h (by norm_num)
  have h3 : x / 1000 * 1000 = x := by field_simp
  linarith

/-- The gauge bucket of an observation dominates the observation and is
positive whenever the fallback is. -/
theorem niceGauge_ge (d fb : Rat) (hfb : 0 < fb) :
    d ≤ niceGaugeMaxBucket (some d) fb ∧ 0 < niceGaugeMaxBucket (some d) fb := by
  have hbase : ∀ y : Rat, y ≤ niceGaugeMaxBucket (some y) fb ∨ True := fun _ => Or.inr trivial
  clear hbase
  unfold niceGaugeMaxBucket
  simp only []
  by_cases hd : 0 < d
  · rw [if_pos hd]
    cases hf : firstStepGe d gaugeSteps with
    | some s =>
      simp only [hf]
      have := firstStepGe_ge d gaugeSteps s hf
      exact ⟨this, lt_of_lt_of_le hd this⟩
    | none =>
      simp only [hf]
      have := le_ceil_thousand d
      exact ⟨this, lt_of_lt_of_le hd this⟩
  · rw [if_neg hd]
    have hdle : d ≤ 0 := not_lt.mp hd
    cases hf : firstStepGe fb gaugeSteps with
    | some s =>
      simp only [hf]
      have := firstStepGe_ge fb gaugeSteps s hf
      constructor
      · linarith
      · linarith
    | none =>
      simp only [hf]
      have := le_ceil_thousand fb
      constructor
      · linarith
      · linarith

/-- The conditional gauge update of doRun always installs the fresh
nonzero bucket (skipping the write exactly when it already holds). -/
theorem gauge_update_eq (nmd cur : Rat) (h : nmd ≠ 0) :
    (if nmd ≠ 0 ∧ nmd ≠ cur then nmd else cur) = nmd := by
  by_cases hc : nmd = cur
  · simp [hc]
  · simp [h, hc]

/-- The rate-limit bookkeeping never touches the gauge hints. -/
theorem rateLimitPhase_max (now : Nat) (res : RunResult) (s : CState) :
    (rateLimitPhase now res s).maxDown = s.maxDown ∧
    (rateLimitPhase now res s).maxUp = s.maxUp := by
  unfold rateLimitPhase
  split
  · exact ⟨rfl, rfl⟩
  · split
    · exact ⟨rfl, rfl⟩
    · exact ⟨rfl, rfl⟩

/-- C4 is refuted as stated: along a reachable trace, a completed run of
800 Mbps sets the download gauge hint to 1000, and the next completed run
of 10 Mbps lowers it to 25, so the hint is not monotone across successive
completed runs. -/
theorem C4_counterexample :
    Reachable c4sD 301000 ∧
    c4sB.maxDown = 1000 ∧ c4sD.maxDown = 25 ∧ c4sD.maxDown < c4sB.maxDown := by
  refine ⟨?_, by decide, by decide, by decide⟩
  have h0 : Reachable sampleState 0 := Reachable.init none 0 0 0 0 [] false 0
  have h1 : Reachable c4sA 1000 := Reachable.runNow 1000 h0 (by omega)
  have h2 : Reachable c4sB 2000 :=
    Reachable.finish (.success res800) 2000 h1 (by omega) (by decide)
  have h3 : Reachable c4sC 300000 := Reachable.runNow 300000 h2 (by omega)
  exact Reachable.finish (.success res10) 301000 h3 (by omega) (by decide)

/-- C4 (amended): each completed run sets the gauge hints to the nice
bucket of that run's own observed throughput (with fallbacks 250 and 50),
and each hint dominates the observed value; the hints are not monotone
across successive runs, because the bucket of the latest run replaces the
stored hint even when smaller. -/
theorem C4_gauge_hint_after_run :
    ∀ (now : Nat) (s : CState) (res : RunResult) (d u : Rat),
      res.down_mbps = some d → res.up_mbps = some u →
      (finishRun now (.success res) s).maxDown = niceGaugeMaxBucket (some d) 250 ∧
      (finishRun now (.success res) s).maxUp = niceGaugeMaxBucket (some u) 50 ∧
      d ≤ (finishRun now (.success res) s).maxDown ∧
      u ≤ (finishRun now (.success res) s).maxUp := by
  intro now s res d u hd hu
  have hD := niceGauge_ge d 250 (by norm_num)
  have hU := niceGauge_ge u 50 (by norm_num)
  have key : (finishRun now (.success res) s).maxDown = niceGaugeMaxBucket (some d) 250 ∧
      (finishRun now (.success res) s).maxUp = niceGaugeMaxBucket (some u) 50 := by
    simp only [finishRun]
    cases hp : (rateLimitPhase now res s).progress with
    | none =>
      simp only [hp, hd, hu]
      exact ⟨gauge_update_eq _ _ (ne_of_gt hD.2), gauge_update_eq _ _ (ne_of_gt hU.2)⟩
    | some p =>
      simp only [hp, mergeFinal, hd, hu, Option.some_orElse]
      exact ⟨gauge_update_eq _ _ (ne_of_gt hD.2), gauge_update_eq _ _ (ne_of_gt hU.2)⟩
  refine ⟨key.1, key.2, ?_, ?_⟩
  · rw [key.1]; exact hD.1
  · rw [key.2]; exact hU.1

/-- Witness for C4 (amended) on the 800 Mbps run of the counterexample
trace. -/
theorem C4_gauge_hint_after_run_witness :
    c4sB.maxDown = niceGaugeMaxBucket (some 800) 250 ∧
    c4sB.maxUp = niceGaugeMaxBucket (some 40) 50 ∧
    (800 : Rat) ≤ c4sB.maxDown ∧ (40 : Rat) ≤ c4sB.maxUp :=
  C4_gauge_hint_after_run 2000 c4sA res800 800 40 rfl rfl

/-- Every completion path of doRun ends in the finally block clearing the
running flag. -/
theorem finishRun_running (now : Nat) (outcome : RunOutcome) (s : CState) :
    (finishRun now outcome s).running = false := by
  cases outcome <;> rfl

/-- Reachability invariant: a run can only be in flight when the
rate-limit window closed no later than the step that produced the state
(every start path checks the window first, and completions clear the
flag). -/
theorem reachable_inv : ∀ {s : CState} {t : Nat}, Reachable s t →
    s.running = true → s.rateLimitUntil ≤ t := by
  intro s t h
  induction h with
  | init i0 u0 c0 md0 mu0 h0 ro t0 =>
    simp only [initState, scheduleNextS, doRunStart]
    split_ifs <;> intro hrun <;>
      first
        | exact (‹False›).elim
        | (show u0 ≤ t0; rcases ‹u0 = 0 ∨ u0 ≤ t0› with h | h <;> omega)
  | tick now hr hle ih =>
    rename_i s t
    intro hrun
    by_cases h1 : s.intervalMin = 0
    · rw [tickOp, if_pos h1] at hrun ⊢
      exact le_trans (ih hrun) hle
    · by_cases h2 : s.rateLimitUntil ≠ 0 ∧ now < s.rateLimitUntil
      · rw [tickOp, if_neg h1, if_pos h2] at hrun ⊢
        exact le_trans (ih hrun) hle
      · rw [tickOp, if_neg h1, if_neg h2] at hrun ⊢
        set s1 := if s.nextRunTs = 0 then scheduleNextS now s else s with hs1
        have hs1run : s1.running = s.running := by rw [hs1]; split <;> rfl
        have hs1rl : s1.rateLimitUntil = s.rateLimitUntil := by rw [hs1]; split <;> rfl
        by_cases h3 : s1.nextRunTs ≤ now ∧ s1.running = false
        · rw [if_pos h3] at hrun ⊢
          by_cases hrr : (scheduleNextS now s1).running = true
          · rw [doRunStart, if_pos hrr]
            show s1.rateLimitUntil ≤ now
            rw [hs1rl]
            omega
          · rw [doRunStart, if_neg hrr]
            show s1.rateLimitUntil ≤ now
            rw [hs1rl]
            omega
        · rw [if_neg h3] at hrun ⊢
          rw [hs1rl]
          rw [hs1run] at hrun
          exact le_trans (ih hrun) hle
  | runNow now hr hle ih =>
    rename_i s t
    intro hrun
    by_cases h2 : s.rateLimitUntil ≠ 0 ∧ now < s.rateLimitUntil
    · rw [runNowOp, if_pos h2] at hrun ⊢
      simp only [snapshotStep] at hrun ⊢
      exact le_trans (ih hrun) hle
    · rw [runNowOp, if_neg h2] at hrun ⊢
      by_cases hr2 : s.running = true
      · rw [doRunStart, if_pos hr2] at hrun ⊢
        show s.rateLimitUntil ≤ now
        omega
      · rw [doRunStart, if_neg hr2] at hrun ⊢
        show s.rateLimitUntil ≤ now
        omega
  | setInterval m now hr hle ih =>
    rename_i s t
    intro hrun
    simp only [setIntervalOp, snapshotStep, scheduleNextS] at hrun ⊢
    exact le_trans (ih hrun) hle
  | snap now hr hle ih =>
    rename_i s t
    intro hrun
    simp only [snapshotStep] at hrun ⊢
    exact le_trans (ih hrun) hle
  | finish outcome now hr hle hrun2 ih =>
    intro hrun
    rw [finishRun_running] at hrun
    exact absurd hrun (by decide)

/-- C5: in every reachable controller state with a run in flight, a second
trigger is a no-op: the synchronous doRun prefix returns without mutating
the state and reports no start, tick starts nothing, and runNow starts
nothing and simply returns the current snapshot (the snapshot call itself
only prunes stale history, as every snapshot does). -/
theorem C5_single_flight :
    ∀ (s : CState) (t now : Nat), Reachable s t → s.running = true → t ≤ now →
      doRunStart now s = (s, false) ∧
      (tickOp now s).2 = false ∧
      (runNowOp now s).started = false ∧
      (runNowOp now s).st = (snapshotStep now s).2 ∧
      (runNowOp now s).snap = (snapshotStep now s).1 := by
  intro s t now hreach hrun hle
  have hinv : s.rateLimitUntil ≤ now := le_trans (reachable_inv hreach hrun) hle
  have hcond : ¬(s.rateLimitUntil ≠ 0 ∧ now < s.rateLimitUntil) := by omega
  have hds : doRunStart now s = (s, false) := by rw [doRunStart, if_pos hrun]
  refine ⟨hds, ?_, ?_, ?_, ?_⟩
  · rw [tickOp]
    by_cases h1 : s.intervalMin = 0
    · rw [if_pos h1]
    · rw [if_neg h1, if_neg hcond]
      set s1 := if s.nextRunTs = 0 then scheduleNextS now s else s with hs1
      have hs1run : s1.running = s.running := by rw [hs1]; split <;> rfl
      have h3 : ¬(s1.nextRunTs ≤ now ∧ s1.running = false) := by
        simp [hs1run, hrun]
      rw [if_neg h3]
  · rw [runNowOp, if_neg hcond, hds]
  · rw [runNowOp, if_neg hcond, hds]
  · rw [runNowOp, if_neg hcond, hds]

/-- Witness for C5 on a controller that is running from creation
(run-on-start with a positive interval). -/
theorem C5_single_flight_witness :
    doRunStart 0 runningSample = (runningSample, false) ∧
    (tickOp 0 runningSample).2 = false ∧
    (runNowOp 0 runningSample).started = false ∧
    (runNowOp 0 runningSample).st = (snapshotStep 0 runningSample).2 ∧
    (runNowOp 0 runningSample).snap = (snapshotStep 0 runningSample).1 :=
  C5_single_flight runningSample 0 0 (Reachable.init (some 5) 0 0 0 0 [] true 0)
    (by decide) (le_refl 0)

mutual

/-- Structural equality of JSON values is reflexive. -/
theorem Json.beq_refl : ∀ (a : Json), Json.beq a a = true
  | .null => rfl
  | .bool b => by simp [Json.beq]
  | .num q => by simp [Json.beq]
  | .str s => by simp [Json.beq]
  | .arr xs => by
      simp only [Json.beq]
      exact Json.beqList_refl xs
  | .obj kvs => by
      simp only [Json.beq]
      exact Json.beqKV_refl kvs

/-- Reflexivity of the element-wise comparison. -/
theorem Json.beqList_refl : ∀ (xs : List Json), Json.beq.beqList xs xs = true
  | [] => rfl
  | x :: xs => by
      simp only [Json.beq.beqList, Bool.and_eq_true]
      exact ⟨Json.beq_refl x, Json.beqList_refl xs⟩

/-- Reflexivity of the member-wise comparison. -/
theorem Json.beqKV_refl : ∀ (kvs : List (String × Json)), Json.beq.beqKV kvs kvs = true
  | [] => rfl
  | (k, v) :: kvs => by
      simp only [Json.beq.beqKV, Bool.and_eq_true, beq_self_eq_true, true_and]
      exact ⟨Json.beq_refl v, Json.beqKV_refl kvs⟩

end

/-- The pick of a scalar or of an object without a nested candidate is
trivial: nothing for scalars, the object itself otherwise. -/
theorem pickBestF_obj (fuel : Nat) (kvs : List (String × Json))
    (h : isResultTagged (.obj kvs) = true ∨ innerCandidate (.obj kvs) = none) :
    pickBestF (fuel + 1) (.obj kvs) = some (.obj kvs) := by
  rcases h with h | h
  · simp [pickBestF, h]
  · simp [pickBestF, h]

/-- On every value of unchangedShape the pick is the identity or
nothing. -/
theorem pickBest_unchanged (v : Json) (h : unchangedShape v) :
    pickBestSpeedtestResult v = none ∨ pickBestSpeedtestResult v = some v := by
  unfold pickBestSpeedtestResult
  rw [show 2 * jsize v + 2 = (2 * jsize v + 1) + 1 from rfl]
  cases v with
  | null => exact Or.inl rfl
  | bool b => exact Or.inl rfl
  | num q => exact Or.inl rfl
  | str s => exact Or.inl rfl
  | arr xs => exact False.elim h
  | obj kvs => exact Or.inr (pickBestF_obj _ kvs h)

/-- C2 is refuted as stated: the well-formed JSON input consisting of an
object whose result member is tagged type = result parses, but the
Salvage Parser substitutes the nested object for the parse result and
flags it as salvaged. -/
theorem C2_counterexample :
    safeJsonParse "\x7b\"result\":\x7b\"type\":\"result\"\x7d\x7d" =
      .ok (Json.obj [("type", Json.str "result")]) true ∧
    jsonParseL (trimChars ("\x7b\"result\":\x7b\"type\":\"result\"\x7d\x7d").data) =
      some (Json.obj [("result", Json.obj [("type", Json.str "result")])]) ∧
    Json.obj [("type", Json.str "result")] ≠
      Json.obj [("result", Json.obj [("type", Json.str "result")])] :=
  ⟨rfl, rfl, by simp⟩

/-- C2 (amended): for every well-formed JSON input the Salvage Parser
returns ok; the value is the exact parse result, with no salvage flagged,
whenever the parse result is a scalar or an object without a nested
result or data container (an array, or an object with such a nested
container, may instead have the best nested result-like object
substituted, flagged as salvaged). -/
theorem C2_wellformed_unchanged :
    ∀ (text : String) (v : Json),
      jsonParseL (trimChars text.data) = some v → unchangedShape v →
      safeJsonParse text = .ok v false := by
  intro text v hp hsh
  have hne : ¬(trimChars text.data = []) := by
    intro h0
    rw [h0, show jsonParseL [] = none from rfl] at hp
    exact Option.noConfusion hp
  simp only [safeJsonParse]
  rw [if_neg hne]
  simp only [hp]
  rcases pickBest_unchanged v hsh with hpk | hpk
  · rw [hpk]
    rfl
  · rw [hpk]
    simp only [Option.getD_some, Json.beq_refl, Bool.not_true]

/-- Witness for C2 (amended) on a small well-formed object. -/
theorem C2_wellformed_unchanged_witness :
    safeJsonParse "\x7b\"ping\":1\x7d" = .ok (Json.obj [("ping", Json.num 1)]) false :=
  C2_wellformed_unchanged "\x7b\"ping\":1\x7d" (Json.obj [("ping", Json.num 1)])
    (by rfl) (Or.inr rfl)

/-- The block scan of an empty text finds nothing. -/
theorem collectBlocks_nil (fuel : Nat) : collectBlocks fuel [] [] = [] := by
  cases fuel <;> rfl

/-- The selection loop yields a value as soon as a candidate is already
held or any remaining block parses while the best score is still the
initial -1. -/
theorem bestOfBlocks_isSome :
    ∀ (bs : List (List Char)) (best : Option Json) (bsc : Int),
      (best.isSome = true ∨ (bsc < 0 ∧ ∃ b ∈ bs, (jsonParseL b).isSome = true)) →
      (bestOfBlocks bs best bsc).isSome = true := by
  intro bs
  induction bs with
  | nil =>
    intro best bsc h
    rcases h with h | ⟨_, b, hb, _⟩
    · simpa [bestOfBlocks] using h
    · exact absurd hb (List.not_mem_nil b)
  | cons b bs ih =>
    intro best bsc h
    rw [bestOfBlocks]
    cases hpb : jsonParseL b with
    | some obj0 =>
      simp only []
      split
      · exact ih _ _ (Or.inl rfl)
      · rename_i hlt
        rcases h with h | ⟨hbsc, b2, hb2, hps⟩
        · exact ih _ _ (Or.inl h)
        · exfalso
          have hnn : (0 : Int) ≤ ((scoreCandidate
              ((pickBestSpeedtestResult obj0).getD obj0) : Nat) : Int) :=
            Int.ofNat_nonneg _
          omega
    | none =>
      rcases h with h | ⟨hbsc, b2, hb2, hps⟩
      · exact ih _ _ (Or.inl h)
      · rcases List.mem_cons.mp hb2 with rfl | hb2
        · rw [hpb] at hps
          exact absurd hps (by simp)
        · exact ih _ _ (Or.inr ⟨hbsc, b2, hb2, hps⟩)

/-- C3 is refuted as stated: the text holds, as a literal contiguous
substring, a complete well-formed JSON object with truthy download,
upload and ping fields, yet the Salvage Parser returns a different,
higher-scoring block (tagged type = result) in which none of the three
fields is present. -/
theorem C3_counterexample :
    ("x \x7b\"type\":\"result\"\x7d \x7b\"download\":1,\"upload\":1,\"ping\":1\x7d").data =
      ("x \x7b\"type\":\"result\"\x7d ").data ++
        ("\x7b\"download\":1,\"upload\":1,\"ping\":1\x7d").data ∧
    jsonParseL ("\x7b\"download\":1,\"upload\":1,\"ping\":1\x7d").data =
      some (Json.obj [("download", Json.num 1), ("upload", Json.num 1),
        ("ping", Json.num 1)]) ∧
    truthyOpt (jfield (Json.obj [("download", Json.num 1), ("upload", Json.num 1),
      ("ping", Json.num 1)]) "download") = true ∧
    truthyOpt (jfield (Json.obj [("download", Json.num 1), ("upload", Json.num 1),
      ("ping", Json.num 1)]) "upload") = true ∧
    truthyOpt (jfield (Json.obj [("download", Json.num 1), ("upload", Json.num 1),
      ("ping", Json.num 1)]) "ping") = true ∧
    safeJsonParse
        "x \x7b\"type\":\"result\"\x7d \x7b\"download\":1,\"upload\":1,\"ping\":1\x7d" =
      .ok (Json.obj [("type", Json.str "result")]) true ∧
    jfield (Json.obj [("type", Json.str "result")]) "download" = none ∧
    jfield (Json.obj [("type", Json.str "result")]) "upload" = none ∧
    jfield (Json.obj [("type", Json.str "result")]) "ping" = none :=
  ⟨rfl, rfl, rfl, rfl, rfl, rfl, rfl, rfl, rfl⟩

/-- Full specification of the selection loop: a returned value is either
the incoming candidate or the picked object of some parsed block, its
score dominates the incoming best score, and it dominates the score of
every parsed block's picked candidate.  The precondition records the
invariant that the running best score is the score of the held
candidate. -/
theorem bestOfBlocks_spec :
    ∀ (bs : List (List Char)) (best : Option Json) (bsc : Int) (v : Json),
      (∀ w, best = some w → bsc = (scoreCandidate w : Int)) →
      bestOfBlocks bs best bsc = some v →
      (best = some v ∨ ∃ b ∈ bs, ∃ j, jsonParseL b = some j ∧
          v = (pickBestSpeedtestResult j).getD j) ∧
      bsc ≤ (scoreCandidate v : Int) ∧
      (∀ b ∈ bs, ∀ j, jsonParseL b = some j →
        scoreCandidate ((pickBestSpeedtestResult j).getD j) ≤ scoreCandidate v) := by
  intro bs
  induction bs with
  | nil =>
    intro best bsc v hinv hres
    rw [bestOfBlocks] at hres
    refine ⟨Or.inl hres, ?_, ?_⟩
    · rw [hinv v hres]
    · intro b hb
      exact absurd hb (List.not_mem_nil b)
  | cons b bs ih =>
    intro best bsc v hinv hres
    rw [bestOfBlocks] at hres
    cases hpb : jsonParseL b with
    | none =>
      simp only [hpb] at hres
      obtain ⟨ha, hmid, hall⟩ := ih best bsc v hinv hres
      refine ⟨?_, hmid, ?_⟩
      · rcases ha with h | ⟨b2, hmem, hj⟩
        · exact Or.inl h
        · exact Or.inr ⟨b2, List.mem_cons_of_mem b hmem, hj⟩
      · intro b2 hmem j hj
        rcases List.mem_cons.mp hmem with rfl | hmem2
        · rw [hpb] at hj
          exact Option.noConfusion hj
        · exact hall b2 hmem2 j hj
    | some j0 =>
      simp only [hpb] at hres
      by_cases hlt : bsc < ((scoreCandidate ((pickBestSpeedtestResult j0).getD j0) : Nat) : Int)
      · rw [if_pos hlt] at hres
        obtain ⟨ha, hmid, hall⟩ := ih (some ((pickBestSpeedtestResult j0).getD j0))
          ((scoreCandidate ((pickBestSpeedtestResult j0).getD j0) : Nat) : Int) v
          (by intro w hw; cases hw; rfl) hres
        refine ⟨?_, ?_, ?_⟩
        · rcases ha with h | ⟨b2, hmem, hj⟩
          · refine Or.inr ⟨b, List.mem_cons_self b bs, j0, hpb, ?_⟩
            injection h with h
            exact h.symm
          · exact Or.inr ⟨b2, List.mem_cons_of_mem b hmem, hj⟩
        · omega
        · intro b2 hmem j hj
          rcases List.mem_cons.mp hmem with rfl | hmem2
          · rw [hpb] at hj
            injection hj with hj
            subst hj
            omega
          · exact hall b2 hmem2 j hj
      · rw [if_neg hlt] at hres
        obtain ⟨ha, hmid, hall⟩ := ih best bsc v hinv hres
        refine ⟨?_, hmid, ?_⟩
        · rcases ha with h | ⟨b2, hmem, hj⟩
          · exact Or.inl h
          · exact Or.inr ⟨b2, List.mem_cons_of_mem b hmem, hj⟩
        · intro b2 hmem j hj
          rcases List.mem_cons.mp hmem with rfl | hmem2
          · rw [hpb] at hj
            injection hj with hj
            subst hj
            omega
          · exact hall b2 hmem2 j hj

/-- C3 (amended): whenever at least one of the complete top-level JSON
blocks collected from the text parses, the Salvage Parser returns ok;
moreover, whenever the direct parse fails (the embedded-in-noise case),
the object returned, flagged salvaged, is the highest-scoring candidate
among the collected blocks: it is the picked object of one of the parsed
blocks and its score dominates the picked candidate of every parsed
block, so the download, upload and ping fields are present only when
that winning candidate carries them. -/
theorem C3_salvage_returns_best :
    ∀ (text : String),
      (∃ b ∈ collectBlocks ((trimChars text.data).length + 1) (trimChars text.data) [],
        (jsonParseL b).isSome = true) →
      (∃ v sal, safeJsonParse text = SJP.ok v sal) ∧
      (jsonParseL (trimChars text.data) = none →
        ∃ v, safeJsonParse text = SJP.ok v true ∧
          (∃ b ∈ collectBlocks ((trimChars text.data).length + 1) (trimChars text.data) [],
            ∃ j, jsonParseL b = some j ∧ v = (pickBestSpeedtestResult j).getD j) ∧
          (∀ b ∈ collectBlocks ((trimChars text.data).length + 1) (trimChars text.data) [],
            ∀ j, jsonParseL b = some j →
              scoreCandidate ((pickBestSpeedtestResult j).getD j) ≤ scoreCandidate v)) := by
  intro text hex
  have hne : ¬(trimChars text.data = []) := by
    intro h0
    rw [h0, collectBlocks_nil] at hex
    rcases hex with ⟨b, hb, _⟩
    exact absurd hb (List.not_mem_nil b)
  have hsome : (extractBestJsonBlockL (trimChars text.data)).isSome = true := by
    unfold extractBestJsonBlockL
    exact bestOfBlocks_isSome _ _ _ (Or.inr ⟨by decide, hex⟩)
  constructor
  · simp only [safeJsonParse]
    rw [if_neg hne]
    cases hp : jsonParseL (trimChars text.data) with
    | some parsed => exact ⟨_, _, rfl⟩
    | none =>
      cases hbest : extractBestJsonBlockL (trimChars text.data) with
      | some best => exact ⟨best, true, rfl⟩
      | none =>
        rw [hbest] at hsome
        exact absurd hsome (by simp)
  · intro hpnone
    obtain ⟨v, hv⟩ := Option.isSome_iff_exists.mp hsome
    have hv2 := hv
    unfold extractBestJsonBlockL at hv2
    obtain ⟨ha, _, hall⟩ := bestOfBlocks_spec _ none (-1) v
      (by intro w hw; cases hw) hv2
    refine ⟨v, ?_, ?_, hall⟩
    · simp only [safeJsonParse]
      rw [if_neg hne]
      simp only [hpnone, hv]
    · rcases ha with h | h
      · exact Option.noConfusion h
      · exact h

/-- Witness for C3 (amended) on a text whose only block is an empty
object surrounded by noise: the parser returns ok, and the returned
object is the best-scoring candidate of the collected blocks. -/
theorem C3_salvage_returns_best_witness :
    (∃ v sal, safeJsonParse "x \x7b\x7d" = SJP.ok v sal) ∧
    (∃ v, safeJsonParse "x \x7b\x7d" = SJP.ok v true ∧
      (∃ b ∈ collectBlocks ((trimChars ("x \x7b\x7d").data).length + 1)
          (trimChars ("x \x7b\x7d").data) [],
        ∃ j, jsonParseL b = some j ∧ v = (pickBestSpeedtestResult j).getD j) ∧
      (∀ b ∈ collectBlocks ((trimChars ("x \x7b\x7d").data).length + 1)
          (trimChars ("x \x7b\x7d").data) [],
        ∀ j, jsonParseL b = some j →
          scoreCandidate ((pickBestSpeedtestResult j).getD j) ≤ scoreCandidate v)) :=
  ⟨(C3_salvage_returns_best "x \x7b\x7d" (by decide)).1,
   (C3_salvage_returns_best "x \x7b\x7d" (by decide)).2 rfl⟩

end ArgusSys
